import Mathlib

/-!
Verification development for the meeting-summarizer pipeline
(`app.py`, `utils/text_extraction.py`, `utils/transcription.py`,
`utils/llm_analysis.py`, `utils/pdf_generator.py`,
`utils/data_persistence.py`).

Python strings are embedded as `List Char`.  External collaborators
(the OpenAI client, the file decoders, the PDF library, the dataset
backend, the filesystem) are embedded as explicit environment records
whose fields hold the outcome each collaborator would produce; the
repository's own control flow is translated statement by statement.
-/

/-- The characters Python's `str.strip()` removes (ASCII whitespace). -/
def isPySpace (c : Char) : Bool :=
  c = ' ' || c = '\t' || c = '\n' || c = '\r' || c = '\x0b' || c = '\x0c'

/-- Python `str.strip()`: drop leading and trailing whitespace. -/
def pyStrip (s : List Char) : List Char :=
  ((s.dropWhile isPySpace).reverse.dropWhile isPySpace).reverse

/-- Python `str.startswith(pre)` on the `List Char` embedding. -/
def startsWithL : List Char → List Char → Bool
  | [], _ => true
  | _ :: _, [] => false
  | p :: ps, c :: cs => p = c && startsWithL ps cs

/-- Python `str.endswith(suf)` on the `List Char` embedding. -/
def endsWithL (suf s : List Char) : Bool :=
  startsWithL suf.reverse s.reverse

/-- Python slicing `s[:-n]` (for `n ≤ len s`): drop the last `n` characters. -/
def dropRightL (n : Nat) (s : List Char) : List Char :=
  s.take (s.length - n)

/-- Model of `os.path.splitext(p)[1]` (posixpath): the extension starts at the
last dot, provided that dot lies after the last path separator and at least
one character of the final component before that dot is not a dot.  Computed
here by scanning from the right. -/
def splitextExt (p : List Char) : List Char :=
  let r := p.reverse
  let afterDot := r.takeWhile (fun c => c ≠ '.' && c ≠ '/')
  let rest := r.drop afterDot.length
  if rest.head? = some '.' then
    if ((rest.tail).takeWhile (fun c => c ≠ '/')).any (fun c => c ≠ '.') then
      '.' :: afterDot.reverse
    else []
  else []

/-- Model of `os.path.basename` (posixpath): everything after the last `/`. -/
def basenameL (p : List Char) : List Char :=
  (p.reverse.takeWhile (fun c => c ≠ '/')).reverse

/-- JSON values, as produced by `json.loads` on the model response. -/
inductive Json where
  | null
  | bool (b : Bool)
  | num (n : Int)
  | str (s : String)
  | arr (xs : List Json)
  | obj (kvs : List (String × Json))

/-- Dictionary lookup `j[k]` on an object, `none` when absent or not an
object (Python dict keys are unique, so first-match lookup is faithful). -/
def Json.get? : Json → String → Option Json
  | .obj kvs, k => kvs.lookup k
  | _, _ => none

/-- Python `k in result`. -/
def Json.hasKey (j : Json) (k : String) : Bool :=
  (j.get? k).isSome

/-- Python `result.get(k, d)`. -/
def Json.getD (j : Json) (k : String) (d : Json) : Json :=
  (j.get? k).getD d

/-- Python `isinstance(x, str)`. -/
def Json.isStr : Json → Bool
  | .str _ => true
  | _ => false

/-- Python `isinstance(x, list)`. -/
def Json.isArr : Json → Bool
  | .arr _ => true
  | _ => false

/-- Python truthiness of a JSON value (`if not analysis`, ...). -/
def Json.pyTruthy : Json → Bool
  | .null => false
  | .bool b => b
  | .num n => n ≠ 0
  | .str s => s ≠ ""
  | .arr xs => !xs.isEmpty
  | .obj kvs => !kvs.isEmpty

/-- The items of a JSON list (`for topic in topics`); non-lists yield no
items (the repository only iterates values already validated as lists). -/
def Json.items : Json → List Json
  | .arr xs => xs
  | _ => []

/-- Python `len` on the JSON values the repository measures (lists). -/
def Json.pyLen : Json → Nat
  | .arr xs => xs.length
  | .str s => s.length
  | .obj kvs => kvs.length
  | _ => 0

/-- Join with `", "`, as Python's container reprs do. -/
def joinCommaSep (xs : List (List Char)) : List Char :=
  List.intercalate (", ".toList) xs

mutual
/-- Python `repr` of a JSON value (quote-escaping inside strings is not
reproduced; no claim depends on the repr of a non-string value). -/
def pyRepr : Json → List Char
  | .null => "None".toList
  | .bool true => "True".toList
  | .bool false => "False".toList
  | .num n => (toString n).toList
  | .str s => '\'' :: s.toList ++ ['\'']
  | .arr xs => '[' :: joinCommaSep (pyReprList xs) ++ [']']
  | .obj kvs => Char.ofNat 123 :: joinCommaSep (pyReprPairs kvs) ++ [Char.ofNat 125]

/-- `repr` of each element of a list. -/
def pyReprList : List Json → List (List Char)
  | [] => []
  | x :: xs => pyRepr x :: pyReprList xs

/-- `repr` of each key/value pair of a dict. -/
def pyReprPairs : List (String × Json) → List (List Char)
  | [] => []
  | (k, v) :: kvs => ('\'' :: k.toList ++ '\'' :: ':' :: ' ' :: pyRepr v) :: pyReprPairs kvs
end

/-- Python `str(x)` as used by f-string interpolation: identity on strings,
`repr` on the remaining JSON shapes. -/
def pyStr : Json → List Char
  | .str s => s.toList
  | j => pyRepr j

/-! ## `utils/transcription.py` -/

/-- `get_supported_audio_extensions()` from `utils/transcription.py`. -/
def get_supported_audio_extensions : List (List Char) :=
  [".mp3".toList, ".wav".toList, ".m4a".toList, ".flac".toList, ".ogg".toList]

/-- `is_audio_file(file_path)` from `utils/transcription.py`: false on the
empty string, otherwise membership of the lower-cased `splitext` extension
in the supported audio extensions. -/
def is_audio_file (file_path : List Char) : Bool :=
  if file_path.isEmpty then false
  else ((splitextExt file_path).map Char.toLower) ∈ get_supported_audio_extensions

/-! ## `utils/text_extraction.py` -/

/-- Environment for `extract_text`: the filesystem check and the outcome of
each format decoder (`_extract_from_txt` / `_extract_from_pdf` /
`_extract_from_docx`, which wrap external libraries).  `.ok s` is the text
the decoder would return, `.error e` models the decoder raising. -/
structure ExtractEnv where
  fileExists : Bool
  txtResult : Except (List Char) (List Char)
  pdfResult : Except (List Char) (List Char)
  docxResult : Except (List Char) (List Char)

/-- `extract_text(file_path)` from `utils/text_extraction.py`: missing file
or unsupported extension yields `none`; a decoder exception is caught by the
surrounding `try`/`except` and converted to `none`. -/
def extract_text (env : ExtractEnv) (file_path : List Char) : Option (List Char) :=
  if !env.fileExists then none
  else
    let file_extension := (splitextExt file_path).map Char.toLower
    if file_extension = ".txt".toList then env.txtResult.toOption
    else if file_extension = ".pdf".toList then env.pdfResult.toOption
    else if file_extension = ".docx".toList then env.docxResult.toOption
    else none

/-! ## `utils/llm_analysis.py` -/

/-- The code-fence cleanup of `analyze_meeting` (lines 78-81): drop a
leading ```` ```json ```` marker (7 characters) and then a trailing
```` ``` ```` marker (3 characters). -/
def stripFences (content : List Char) : List Char :=
  let c := if startsWithL "```json".toList content then content.drop 7 else content
  if endsWithL "```".toList c then dropRightL 3 c else c

/-- The structure/type validation of `analyze_meeting` (lines 87-105): all
of `summary`/`topics`/`keywords` present, `summary` a string, `topics` and
`keywords` lists; on success the parsed object is returned unchanged. -/
def validateAnalysis (result : Json) : Option Json :=
  if !(["summary", "topics", "keywords"].all (fun k => result.hasKey k)) then none
  else if !(result.getD "summary" .null).isStr then none
  else if !(result.getD "topics" .null).isArr then none
  else if !(result.getD "keywords" .null).isArr then none
  else some result

/-- Environment for `analyze_meeting`: whether the `openai` import
succeeded, the upstream chat-completion content (`none` models an exception
anywhere inside the `try` block), and the behaviour of `json.loads`
(`none` models `JSONDecodeError`). -/
structure AnalyzeEnv where
  openaiAvailable : Bool
  response : Option (List Char)
  parse : List Char → Option Json

/-- Outcome of `analyze_meeting`, with a trace bit recording whether
control reached the `try` block that constructs the client and issues the
network request. -/
structure AnalyzeOutcome where
  result : Option Json
  attemptedCall : Bool

/-- `analyze_meeting(text, api_key)` from `utils/llm_analysis.py`. -/
def analyze_meeting (env : AnalyzeEnv) (text api_key : List Char) : AnalyzeOutcome :=
  if text.isEmpty || (pyStrip text).isEmpty then ⟨none, false⟩
  else if api_key.isEmpty then ⟨none, false⟩
  else if !env.openaiAvailable then ⟨none, false⟩
  else
    match env.response with
    | none => ⟨none, true⟩
    | some raw =>
        let content := pyStrip raw
        let content := stripFences content
        ⟨(env.parse content).bind validateAnalysis, true⟩

/-- The three display fields built by `format_analysis_for_display`.  The
`summary` field is stored as the raw dictionary value (the source does not
stringify it); the `topics`/`keywords` fields are the joined markdown
strings. -/
structure DisplayDict where
  summary : Json
  topics : List Char
  keywords : List Char

/-- `format_analysis_for_display(analysis)` from `utils/llm_analysis.py`:
a falsy analysis gives the fixed error placeholder in all three fields;
otherwise topics and keywords are rendered one dash-bulleted line per item,
newline-joined, and the summary value is passed through (with a default
when the key is absent). -/
def format_analysis_for_display (analysis : Option Json) : DisplayDict :=
  match analysis with
  | none =>
      ⟨.str "Error in analysis", "Error in analysis".toList, "Error in analysis".toList⟩
  | some a =>
      if !a.pyTruthy then
        ⟨.str "Error in analysis", "Error in analysis".toList, "Error in analysis".toList⟩
      else
        let topics_md := List.intercalate "\n".toList
          ((a.getD "topics" (.arr [])).items.map (fun topic => "- ".toList ++ pyStr topic))
        let keywords_md := List.intercalate "\n".toList
          ((a.getD "keywords" (.arr [])).items.map (fun keyword => "- ".toList ++ pyStr keyword))
        ⟨a.getD "summary" (.str "Summary not available"), topics_md, keywords_md⟩

/-! ## `app.py` -/

/-- The status message built by `process_meeting`, kept structured: either
an error text (rendered behind the cross-mark `Error:` banner) or the
success report with file name, character count, topic count, keyword count
and whether the save-confirmation line was appended. -/
inductive StatusMsg where
  | error (reason : List Char)
  | success (fileName : List Char) (charCount topicCount keywordCount : Nat)
      (savedLine : Bool)

/-- Whether the status message carries the save-confirmation line. -/
def StatusMsg.hasSavedLine : StatusMsg → Bool
  | .error _ => false
  | .success _ _ _ _ saved => saved

/-- The same status message with the save-confirmation line removed. -/
def StatusMsg.withoutSavedLine : StatusMsg → StatusMsg
  | .error reason => .error reason
  | .success fn cc tc kc _ => .success fn cc tc kc false

/-- The save-confirmation line appended by `process_meeting` when an HF
token is supplied. -/
def savedLineText : List Char :=
  "\n💾 Data saved to Hugging Face Dataset".toList

/-- Rendering of the structured status message to the exact string
`process_meeting` returns. -/
def renderStatus : StatusMsg → List Char
  | .error reason => "❌ Error: ".toList ++ reason
  | .success fn cc tc kc saved =>
      "✅ Meeting analyzed successfully!\n\n📄 File: ".toList ++ fn
        ++ "\n📝 Characters analyzed: ".toList ++ (toString cc).toList
        ++ "\n📊 Topics identified: ".toList ++ (toString tc).toList
        ++ "\n🔑 Keywords: ".toList ++ (toString kc).toList
        ++ (if saved then savedLineText else [])

/-- Environment for `process_meeting`: the filesystem checks on the upload
and on the generated PDF, and the outcome each pipeline stage would
produce — `transcribe_audio`, `extract_text`, `analyze_meeting`,
`generate_pdf` and `save_meeting_to_dataset`. -/
structure ProcessEnv where
  pathExists : Bool
  pathIsFile : Bool
  transcribeResult : Option (List Char)
  extractResult : Option (List Char)
  analyzeResult : Option Json
  generatePdfResult : Option (List Char)
  pdfIsFile : Bool
  saveResult : Bool

/-- The five-part return value of `process_meeting`, plus a trace bit
recording whether `save_meeting_to_dataset` was invoked.  The first three
components are the display dictionary values the source forwards. -/
structure ProcessResult where
  summary : Json
  topics : List Char
  keywords : List Char
  pdfPath : Option (List Char)
  message : StatusMsg
  archiveCalled : Bool

/-- The error return shape of `process_meeting`: empty display strings, no
PDF path, an error message, and no archive call. -/
def processError (reason : List Char) : ProcessResult :=
  ⟨.str "", [], [], none, .error reason, false⟩

/-- Python truthiness of the analysis value bound in `process_meeting`
(`if not analysis`): `None` and falsy dictionaries both fail the gate. -/
def analysisTruthy : Option Json → Bool
  | none => false
  | some a => a.pyTruthy

/-- `process_meeting(file, api_key, hf_token)` from `app.py`.  The upload
is `none` when no file was supplied; a `some` path is the string Gradio
hands over (an empty path string is falsy, like `None`). -/
def process_meeting (env : ProcessEnv) (file : Option (List Char))
    (api_key hf_token : List Char) : ProcessResult :=
  if file = none ∨ file = some [] then processError "No file uploaded".toList
  else if api_key.isEmpty then processError "OpenAI API key required".toList
  else
    let file_path := file.getD []
    if !env.pathExists then processError "File not found or invalid".toList
    else if !env.pathIsFile then
      processError ("Path is a directory, not a file: ".toList ++ file_path)
    else
      let file_name := basenameL file_path
      let isAudio := is_audio_file file_name
      let textOpt := if isAudio then env.transcribeResult else env.extractResult
      if textOpt = none ∨ textOpt = some [] then
        processError (if isAudio then "Transcription failed".toList
          else "Text extraction failed".toList)
      else
        let text := textOpt.getD []
        if (pyStrip text).isEmpty then
          processError "No text extracted from file".toList
        else if !analysisTruthy env.analyzeResult then
          processError "Analysis failed".toList
        else
          let analysis := (env.analyzeResult).getD .null
          let formatted := format_analysis_for_display env.analyzeResult
          let pdf_path :=
            match env.generatePdfResult with
            | some p => if env.pdfIsFile then some p else none
            | none => none
          let archiveCalled := !hf_token.isEmpty
          let msg := StatusMsg.success file_name text.length
            (analysis.getD "topics" (.arr [])).pyLen
            (analysis.getD "keywords" (.arr [])).pyLen
            (!hf_token.isEmpty)
          ⟨formatted.summary, formatted.topics, formatted.keywords,
            pdf_path, msg, archiveCalled⟩

/-! ## Spec-side predicates -/

/-- The spec's validity invariant on an analysis result, stated as the
plain conjunction from §3/§4.3: all three of `summary`/`topics`/`keywords`
present, `summary` a string, `topics` and `keywords` sequences. -/
def specValidAnalysis (j : Json) : Prop :=
  j.hasKey "summary" = true ∧ j.hasKey "topics" = true ∧ j.hasKey "keywords" = true ∧
    (j.getD "summary" .null).isStr = true ∧ (j.getD "topics" .null).isArr = true ∧
    (j.getD "keywords" .null).isArr = true

/-! ## Helper lemmas -/

example : splitextExt "meeting.MP3".toList = ".MP3".toList := by decide
example : splitextExt "archive.tar.gz".toList = ".gz".toList := by decide
example : splitextExt ".bashrc".toList = [] := by decide
example : splitextExt "/a/b/.hidden".toList = [] := by decide
example : splitextExt "noext".toList = [] := by decide
example : basenameL "/a/b/c.txt".toList = "c.txt".toList := by decide

example : is_audio_file "talk.MP3".toList = true := by decide
example : is_audio_file "talk.ogg".toList = true := by decide
example : is_audio_file "talk.txt".toList = false := by decide
example : is_audio_file "mp3".toList = false := by decide
example : is_audio_file ".mp3".toList = false := by decide


lemma validateAnalysis_eq (x : Json) :
    validateAnalysis x =
      if x.hasKey "summary" && x.hasKey "topics" && x.hasKey "keywords" &&
          (x.getD "summary" .null).isStr && (x.getD "topics" .null).isArr &&
          (x.getD "keywords" .null).isArr
      then some x else none := by
  unfold validateAnalysis
  cases h1 : x.hasKey "summary" <;> cases h2 : x.hasKey "topics" <;>
    cases h3 : x.hasKey "keywords" <;> cases h4 : (x.getD "summary" .null).isStr <;>
    cases h5 : (x.getD "topics" .null).isArr <;> cases h6 : (x.getD "keywords" .null).isArr <;>
    simp [List.all_cons, List.all_nil, h1, h2, h3, h4, h5, h6]

lemma validateAnalysis_eq_some_iff (x j : Json) :
    validateAnalysis x = some j ↔ j = x ∧ specValidAnalysis x := by
  rw [validateAnalysis_eq]
  unfold specValidAnalysis
  by_cases hc : (x.hasKey "summary" && x.hasKey "topics" && x.hasKey "keywords" &&
      (x.getD "summary" .null).isStr && (x.getD "topics" .null).isArr &&
      (x.getD "keywords" .null).isArr) = true
  · rw [if_pos hc]
    simp only [Bool.and_eq_true] at hc
    obtain ⟨⟨⟨⟨⟨h1, h2⟩, h3⟩, h4⟩, h5⟩, h6⟩ := hc
    simp [h1, h2, h3, h4, h5, h6, eq_comm]
  · rw [if_neg hc]
    constructor
    · intro h; exact Option.noConfusion h
    · rintro ⟨rfl, h1, h2, h3, h4, h5, h6⟩
      exact absurd (by simp [h1, h2, h3, h4, h5, h6]) hc

lemma takeWhileAppendAll (p : Char → Bool) (l1 l2 : List Char)
    (h : ∀ a ∈ l1, p a = true) :
    (l1 ++ l2).takeWhile p = l1 ++ l2.takeWhile p := by
  induction l1 with
  | nil => simp
  | cons a l ih =>
      have ha : p a = true := h a (by simp)
      simp [List.takeWhile_cons, ha, ih (fun b hb => h b (by simp [hb]))]

lemma takeWhileAllOf (p : Char → Bool) (l : List Char) (h : ∀ a ∈ l, p a = true) :
    l.takeWhile p = l := by
  have := takeWhileAppendAll p l [] h
  simpa using this

lemma takeWhileConsNeg (p : Char → Bool) (a : Char) (l : List Char) (h : p a = false) :
    (a :: l).takeWhile p = [] := by
  simp [List.takeWhile_cons, h]

lemma dropWhileConsNeg (p : Char → Bool) (a : Char) (l : List Char) (h : p a = false) :
    (a :: l).dropWhile p = a :: l := by
  simp [List.dropWhile_cons, h]

lemma dropWhileMem (p : Char → Bool) (l : List Char) (c : Char) (t : List Char)
    (h : l.dropWhile p = c :: t) : c ∈ l ∧ p c = false := by
  induction l with
  | nil => cases h
  | cons a l ih =>
      rw [List.dropWhile_cons] at h
      by_cases ha : p a = true
      · rw [if_pos ha] at h
        obtain ⟨hm, hp⟩ := ih h
        exact ⟨by simp [hm], hp⟩
      · rw [if_neg ha] at h
        injection h with h1 h2
        subst h1
        exact ⟨by simp, by simpa using ha⟩

lemma dropTakeWhileLength (p : Char → Bool) (l : List Char) :
    l.drop (l.takeWhile p).length = l.dropWhile p := by
  have h : l.takeWhile p ++ l.dropWhile p = l := List.takeWhile_append_dropWhile p l
  calc l.drop (l.takeWhile p).length
      = (l.takeWhile p ++ l.dropWhile p).drop (l.takeWhile p).length := by rw [h]
    _ = l.dropWhile p := List.drop_left _ _

lemma startsWithLAppend (pre rest : List Char) : startsWithL pre (pre ++ rest) = true := by
  induction pre with
  | nil => rfl
  | cons a l ih => simp [startsWithL, ih]

lemma pyStripEdges (a b : Char) (mid : List Char) (ha : isPySpace a = false)
    (hb : isPySpace b = false) :
    pyStrip (a :: (mid ++ [b])) = a :: (mid ++ [b]) := by
  unfold pyStrip
  rw [dropWhileConsNeg _ _ _ ha]
  have hrev : (a :: (mid ++ [b])).reverse = b :: (mid.reverse ++ [a]) := by simp
  rw [hrev, dropWhileConsNeg _ _ _ hb, ← hrev, List.reverse_reverse]

lemma fencedShape (s : List Char) :
    "```json".toList ++ s ++ "```".toList =
      '`' :: (("``json".toList ++ s ++ "``".toList) ++ ['`']) := by
  simp [List.append_assoc]

lemma pyStripFenced (s : List Char) :
    pyStrip ("```json".toList ++ s ++ "```".toList) =
      "```json".toList ++ s ++ "```".toList := by
  rw [fencedShape]
  exact pyStripEdges _ _ _ (by decide) (by decide)

lemma stripFencesFenced (s : List Char) :
    stripFences ("```json".toList ++ s ++ "```".toList) = s := by
  have h1 : startsWithL "```json".toList ("```json".toList ++ s ++ "```".toList) = true :=
    startsWithLAppend _ _
  have h3 : endsWithL "```".toList (s ++ "```".toList) = true := by
    unfold endsWithL
    rw [List.reverse_append]
    exact startsWithLAppend _ _
  have h4 : dropRightL 3 (s ++ "```".toList) = s := by
    unfold dropRightL
    rw [List.length_append]
    have h3len : ("```".toList).length = 3 := rfl
    rw [h3len, Nat.add_sub_cancel, List.take_left]
  have h2 : ("```json".toList ++ s ++ "```".toList).drop 7 = s ++ "```".toList := by
    have h7 : (7 : Nat) = ("```json".toList).length := rfl
    rw [h7]
    exact List.drop_left _ _
  unfold stripFences
  rw [if_pos h1, h2, if_pos h3, h4]

lemma splitextExtStemExt (stem e : List Char) (hne : stem ≠ [])
    (hsd : '.' ∉ stem) (hss : '/' ∉ stem) (hed : '.' ∉ e) (hes : '/' ∉ e) :
    splitextExt (stem ++ '.' :: e) = '.' :: e := by
  have hrev : (stem ++ '.' :: e).reverse = e.reverse ++ '.' :: stem.reverse := by simp
  have hpred : ∀ a ∈ e.reverse, (fun c => (c ≠ '.' : Bool) && (c ≠ '/' : Bool)) a = true := by
    intro a ha
    rw [List.mem_reverse] at ha
    have h1 : a ≠ '.' := fun hc => hed (hc ▸ ha)
    have h2 : a ≠ '/' := fun hc => hes (hc ▸ ha)
    simp [h1, h2]
  have hpred2 : ∀ a ∈ stem.reverse, (fun c => (c ≠ '/' : Bool)) a = true := by
    intro a ha
    rw [List.mem_reverse] at ha
    have h2 : a ≠ '/' := fun hc => hss (hc ▸ ha)
    simp [h2]
  have hany : stem.reverse.any (fun c => (c ≠ '.' : Bool)) = true := by
    obtain ⟨c, t, rfl⟩ : ∃ c t, stem = c :: t := by
      cases stem with
      | nil => exact absurd rfl hne
      | cons c t => exact ⟨c, t, rfl⟩
    have hc : c ≠ '.' := fun h => hsd (h ▸ List.mem_cons_self c t)
    rw [List.any_eq_true]
    exact ⟨c, by simp, by simp [hc]⟩
  simp only [splitextExt]
  rw [hrev, takeWhileAppendAll _ _ _ hpred,
    takeWhileConsNeg _ _ _ (by decide), List.append_nil, List.drop_left,
    List.head?_cons, List.tail_cons, if_pos rfl,
    takeWhileAllOf _ _ hpred2, if_pos hany, List.reverse_reverse]

lemma splitextExtNoDot (p : List Char) (h : '.' ∉ p) : splitextExt p = [] := by
  simp only [splitextExt]
  rw [dropTakeWhileLength]
  cases hrest : p.reverse.dropWhile (fun c => (c ≠ '.' : Bool) && (c ≠ '/' : Bool)) with
  | nil => simp
  | cons c t =>
      obtain ⟨hmem, hpc⟩ := dropWhileMem _ _ _ _ hrest
      rw [List.mem_reverse] at hmem
      have hc : c ≠ '.' := fun hcc => h (hcc ▸ hmem)
      rw [List.head?_cons]
      have hne : ¬ (some c = some '.') := by simpa using hc
      rw [if_neg hne]

lemma memAudioExtCons (x : List Char) :
    ('.' :: x) ∈ get_supported_audio_extensions ↔
      x ∈ ["mp3".toList, "wav".toList, "m4a".toList, "flac".toList, "ogg".toList] := by
  have e1 : ".mp3".toList = '.' :: "mp3".toList := rfl
  have e2 : ".wav".toList = '.' :: "wav".toList := rfl
  have e3 : ".m4a".toList = '.' :: "m4a".toList := rfl
  have e4 : ".flac".toList = '.' :: "flac".toList := rfl
  have e5 : ".ogg".toList = '.' :: "ogg".toList := rfl
  simp [get_supported_audio_extensions, e1, e2, e3, e4, e5]

/-! ## Claim theorems -/

/-- C4: `is_audio_file` is true exactly when the file's extension, compared
case-insensitively, is one of mp3/wav/m4a/flac/ogg (stated for every name
of the shape `stem.ext` whose stem and extension contain no further dot or
separator), and false for every name with no extension (no dot at all). -/
theorem is_audio_file_extension_spec :
    (∀ stem e : List Char, stem ≠ [] → '.' ∉ stem → '/' ∉ stem → '.' ∉ e → '/' ∉ e →
      (is_audio_file (stem ++ '.' :: e) = true ↔
        e.map Char.toLower ∈
          ["mp3".toList, "wav".toList, "m4a".toList, "flac".toList, "ogg".toList])) ∧
    (∀ p : List Char, '.' ∉ p → is_audio_file p = false) := by
  constructor
  · intro stem e hne hsd hss hed hes
    unfold is_audio_file
    have hemp : (stem ++ '.' :: e).isEmpty = false := by
      cases stem with
      | nil => exact absurd rfl hne
      | cons a t => rfl
    rw [hemp]
    rw [splitextExtStemExt stem e hne hsd hss hed hes]
    have hmap : ('.' :: e).map Char.toLower = '.' :: e.map Char.toLower := by
      have hdot : Char.toLower '.' = '.' := by decide
      simp [hdot]
    simp only [Bool.false_eq_true, if_false, hmap, decide_eq_true_eq]
    exact memAudioExtCons _
  · intro p hp
    unfold is_audio_file
    by_cases hemp : p.isEmpty = true
    · rw [if_pos hemp]
    · rw [if_neg hemp, splitextExtNoDot p hp]
      decide

/-- Witness for C4 at the concrete name `t.mp3` (stem `t`, extension `mp3`). -/
theorem is_audio_file_extension_spec_w :
    is_audio_file ("t".toList ++ '.' :: "mp3".toList) = true ↔
      "mp3".toList.map Char.toLower ∈
        ["mp3".toList, "wav".toList, "m4a".toList, "flac".toList, "ogg".toList] :=
  is_audio_file_extension_spec.1 "t".toList "mp3".toList (by decide) (by decide)
    (by decide) (by decide) (by decide)

/-- C5: `extract_text` never lets a decoder exception escape (in this
embedding every raised exception is an `Except.error`, converted to the
`none` failure signal), a path whose extension is not `.txt`/`.pdf`/`.docx`
yields `none` with no partial text, and a decoder error yields `none` for
each supported format. -/
theorem extract_text_error_handling :
    ∀ (env : ExtractEnv) (p : List Char),
      (((splitextExt p).map Char.toLower ∉
          [".txt".toList, ".pdf".toList, ".docx".toList]) →
        extract_text env p = none) ∧
      (∀ e, (splitextExt p).map Char.toLower = ".txt".toList →
        env.txtResult = .error e → extract_text env p = none) ∧
      (∀ e, (splitextExt p).map Char.toLower = ".pdf".toList →
        env.pdfResult = .error e → extract_text env p = none) ∧
      (∀ e, (splitextExt p).map Char.toLower = ".docx".toList →
        env.docxResult = .error e → extract_text env p = none) := by
  intro env p
  cases hfe : env.fileExists with
  | false => simp [extract_text, hfe]
  | true =>
      unfold extract_text
      rw [hfe]
      simp only [Bool.not_true, Bool.false_eq_true, if_false]
      refine ⟨?_, ?_, ?_, ?_⟩
      · intro hni
        have h1 : ¬((splitextExt p).map Char.toLower = ".txt".toList) :=
          fun h => hni (by rw [h]; decide)
        have h2 : ¬((splitextExt p).map Char.toLower = ".pdf".toList) :=
          fun h => hni (by rw [h]; decide)
        have h3 : ¬((splitextExt p).map Char.toLower = ".docx".toList) :=
          fun h => hni (by rw [h]; decide)
        rw [if_neg h1, if_neg h2, if_neg h3]
      · intro e hext herr
        rw [if_pos hext, herr]
        rfl
      · intro e hext herr
        have h1 : ¬((splitextExt p).map Char.toLower = ".txt".toList) := by
          rw [hext]; decide
        rw [if_neg h1, if_pos hext, herr]
        rfl
      · intro e hext herr
        have h1 : ¬((splitextExt p).map Char.toLower = ".txt".toList) := by
          rw [hext]; decide
        have h2 : ¬((splitextExt p).map Char.toLower = ".pdf".toList) := by
          rw [hext]; decide
        rw [if_neg h1, if_neg h2, if_pos hext, herr]
        rfl

/-- Witness for C5: an unsupported `.md` path and a raising `.pdf` decoder
both produce the failure signal. -/
theorem extract_text_error_handling_w :
    extract_text ⟨true, .ok "x".toList, .ok "x".toList, .ok "x".toList⟩
        "notes.md".toList = none ∧
      extract_text ⟨true, .ok "x".toList, .error "boom".toList, .ok "x".toList⟩
        "doc.pdf".toList = none :=
  ⟨(extract_text_error_handling _ _).1 (by decide),
   (extract_text_error_handling _ _).2.2.1 "boom".toList (by decide) rfl⟩

/-- C6 counterexample: an existing `.txt` file whose decoder succeeds with
empty content (an empty file) makes `extract_text` succeed with the empty
string — the success value is not non-empty. -/
theorem extract_text_nonempty_cex :
    extract_text ⟨true, Except.ok [], Except.ok [], Except.ok []⟩ "meeting.txt".toList
        = some [] ∧
      ¬∃ t, extract_text ⟨true, Except.ok [], Except.ok [], Except.ok []⟩
          "meeting.txt".toList = some t ∧ t ≠ [] := by
  have h0 : extract_text ⟨true, Except.ok [], Except.ok [], Except.ok []⟩
      "meeting.txt".toList = some [] := by decide
  refine ⟨h0, ?_⟩
  rintro ⟨t, ht, hne⟩
  rw [h0] at ht
  exact hne (Option.some.inj ht).symm

/-- C6 (amended): for every existing file in a supported format whose
decoder succeeds, `extract_text` returns exactly the decoded text as its
success value; the text is non-empty precisely when the decoded content is
non-empty (an empty file yields an empty success string). -/
theorem extract_text_success_text :
    ∀ (env : ExtractEnv) (p s : List Char), env.fileExists = true →
      (((splitextExt p).map Char.toLower = ".txt".toList ∧ env.txtResult = .ok s) ∨
       ((splitextExt p).map Char.toLower = ".pdf".toList ∧ env.pdfResult = .ok s) ∨
       ((splitextExt p).map Char.toLower = ".docx".toList ∧ env.docxResult = .ok s)) →
      extract_text env p = some s ∧
        (s ≠ [] → ∃ t, extract_text env p = some t ∧ t ≠ []) := by
  intro env p s hfe hcase
  have hmain : extract_text env p = some s := by
    unfold extract_text
    rw [hfe]
    simp only [Bool.not_true, Bool.false_eq_true, if_false]
    rcases hcase with ⟨hext, hres⟩ | ⟨hext, hres⟩ | ⟨hext, hres⟩
    · rw [if_pos hext, hres]
      rfl
    · have h1 : ¬((splitextExt p).map Char.toLower = ".txt".toList) := by
        rw [hext]; decide
      rw [if_neg h1, if_pos hext, hres]
      rfl
    · have h1 : ¬((splitextExt p).map Char.toLower = ".txt".toList) := by
        rw [hext]; decide
      have h2 : ¬((splitextExt p).map Char.toLower = ".pdf".toList) := by
        rw [hext]; decide
      rw [if_neg h1, if_neg h2, if_pos hext, hres]
      rfl
  exact ⟨hmain, fun hs => ⟨s, hmain, hs⟩⟩

/-- Witness for the amended C6: a `.txt` file decoding to `hello` is
returned verbatim and non-empty. -/
theorem extract_text_success_text_w :
    extract_text ⟨true, .ok "hello".toList, .ok [], .ok []⟩ "m.txt".toList
        = some "hello".toList ∧
      ("hello".toList ≠ [] → ∃ t,
        extract_text ⟨true, .ok "hello".toList, .ok [], .ok []⟩ "m.txt".toList
          = some t ∧ t ≠ []) :=
  extract_text_success_text ⟨true, .ok "hello".toList, .ok [], .ok []⟩
    "m.txt".toList "hello".toList rfl (Or.inl ⟨by decide, rfl⟩)

/-- C8: on the failure signal `format_analysis_for_display` puts the fixed
placeholder in all three display fields; on a valid analysis it passes the
summary through unchanged and renders topics and keywords one dash-prefixed
line per item, newline-joined, in the original order with nothing dropped,
reordered or added. -/
theorem format_analysis_display_spec :
    format_analysis_for_display none =
        ⟨.str "Error in analysis", "Error in analysis".toList,
          "Error in analysis".toList⟩ ∧
      ∀ (a : Json) (sm : String) (ts ks : List String),
        a.pyTruthy = true →
        a.get? "summary" = some (.str sm) →
        a.get? "topics" = some (.arr (ts.map Json.str)) →
        a.get? "keywords" = some (.arr (ks.map Json.str)) →
        format_analysis_for_display (some a) =
          ⟨.str sm,
           List.intercalate "\n".toList (ts.map (fun t => "- ".toList ++ t.toList)),
           List.intercalate "\n".toList (ks.map (fun k => "- ".toList ++ k.toList))⟩ := by
  constructor
  · rfl
  · intro a sm ts ks htr hsm hts hks
    simp only [format_analysis_for_display, htr, Bool.not_true, Bool.false_eq_true,
      if_false, Json.getD, hsm, hts, hks, Option.getD_some, Json.items,
      List.map_map, Function.comp_def, pyStr]

/-- Witness for C8 on a concrete valid analysis with two topics and one
keyword. -/
theorem format_analysis_display_spec_w :
    format_analysis_for_display (some (Json.obj [("summary", Json.str "S"),
        ("topics", Json.arr [Json.str "t1", Json.str "t2"]),
        ("keywords", Json.arr [Json.str "k1"])])) =
      ⟨.str "S",
       List.intercalate "\n".toList
         (["t1", "t2"].map (fun t => "- ".toList ++ t.toList)),
       List.intercalate "\n".toList
         (["k1"].map (fun k => "- ".toList ++ k.toList))⟩ :=
  format_analysis_display_spec.2 _ "S" ["t1", "t2"] ["k1"] rfl rfl rfl rfl

lemma textNonemptyOfStrip (text : List Char) (h : (pyStrip text).isEmpty = false) :
    text.isEmpty = false := by
  cases text with
  | nil => simp [pyStrip] at h
  | cons a l => rfl

lemma analyzePreflightNone (env : AnalyzeEnv) (text api_key : List Char)
    (h : text.isEmpty = true ∨ (pyStrip text).isEmpty = true ∨ api_key.isEmpty = true ∨
      env.openaiAvailable = false) :
    analyze_meeting env text api_key = ⟨none, false⟩ := by
  unfold analyze_meeting
  rcases h with h | h | h | h
  · simp [h]
  · simp [h]
  · cases htxt : (text.isEmpty || (pyStrip text).isEmpty) <;> simp [htxt, h]
  · cases htxt : (text.isEmpty || (pyStrip text).isEmpty) <;>
      cases hk : api_key.isEmpty <;> simp [htxt, hk, h]

lemma analyzeResultEq (env : AnalyzeEnv) (text api_key raw : List Char)
    (hts : (pyStrip text).isEmpty = false) (hk : api_key.isEmpty = false)
    (ho : env.openaiAvailable = true) (hr : env.response = some raw) :
    analyze_meeting env text api_key =
      ⟨(env.parse (stripFences (pyStrip raw))).bind validateAnalysis, true⟩ := by
  have htxt : text.isEmpty = false := textNonemptyOfStrip text hts
  unfold analyze_meeting
  simp [htxt, hts, hk, ho, hr]

/-- C3: `analyze_meeting` returns the failure signal without attempting any
network call when the text is empty or whitespace-only, when the key is
empty, or when the API client library is unavailable; conversely the
request is only attempted once all pre-flight checks pass. -/
theorem analyze_meeting_preflight :
    ∀ (env : AnalyzeEnv) (text api_key : List Char),
      ((text.isEmpty = true ∨ (pyStrip text).isEmpty = true ∨ api_key.isEmpty = true ∨
          env.openaiAvailable = false) →
        analyze_meeting env text api_key = ⟨none, false⟩) ∧
      ((analyze_meeting env text api_key).attemptedCall = true →
        text.isEmpty = false ∧ (pyStrip text).isEmpty = false ∧
          api_key.isEmpty = false ∧ env.openaiAvailable = true) := by
  intro env text api_key
  refine ⟨analyzePreflightNone env text api_key, ?_⟩
  intro h
  refine ⟨?_, ?_, ?_, ?_⟩
  · cases hx : text.isEmpty
    · rfl
    · rw [analyzePreflightNone env text api_key (Or.inl hx)] at h
      simp at h
  · cases hx : (pyStrip text).isEmpty
    · rfl
    · rw [analyzePreflightNone env text api_key (Or.inr (Or.inl hx))] at h
      simp at h
  · cases hx : api_key.isEmpty
    · rfl
    · rw [analyzePreflightNone env text api_key (Or.inr (Or.inr (Or.inl hx)))] at h
      simp at h
  · cases hx : env.openaiAvailable
    · rw [analyzePreflightNone env text api_key (Or.inr (Or.inr (Or.inr hx)))] at h
      simp at h
    · rfl

/-- Witness for C3: whitespace-only text is rejected with no call attempted
even though a key and a responsive client are available. -/
theorem analyze_meeting_preflight_w :
    analyze_meeting ⟨true, some "x".toList, fun _ => none⟩ " ".toList "key".toList
      = ⟨none, false⟩ :=
  (analyze_meeting_preflight ⟨true, some "x".toList, fun _ => none⟩
    " ".toList "key".toList).1 (Or.inr (Or.inl (by decide)))

/-- C2: past the pre-flight checks, `analyze_meeting` returns the parsed
object exactly when the fence-stripped content parses as JSON and the
parsed object carries all three of `summary`/`topics`/`keywords` with the
correct types; in every other case (parse failure, missing key, wrong
type) it returns the failure signal, never a partial result. -/
theorem analyze_meeting_validation :
    ∀ (env : AnalyzeEnv) (text api_key raw : List Char) (j : Json),
      (pyStrip text).isEmpty = false → api_key.isEmpty = false →
      env.openaiAvailable = true → env.response = some raw →
      ((analyze_meeting env text api_key).result = some j ↔
        env.parse (stripFences (pyStrip raw)) = some j ∧ specValidAnalysis j) := by
  intro env text api_key raw j hts hk ho hr
  rw [analyzeResultEq env text api_key raw hts hk ho hr]
  rw [Option.bind_eq_some]
  constructor
  · rintro ⟨x, hx, hvx⟩
    obtain ⟨rfl, hvalid⟩ := (validateAnalysis_eq_some_iff x j).mp hvx
    exact ⟨hx, hvalid⟩
  · rintro ⟨hx, hvalid⟩
    exact ⟨j, hx, (validateAnalysis_eq_some_iff j j).mpr ⟨rfl, hvalid⟩⟩

/-- Witness for C2 with a parser that accepts everything and yields a
well-formed object. -/
theorem analyze_meeting_validation_w :
    (analyze_meeting ⟨true, some "body".toList,
        fun _ => some (Json.obj [("summary", Json.str "s"),
          ("topics", Json.arr []), ("keywords", Json.arr [])])⟩
      "hi".toList "key".toList).result
        = some (Json.obj [("summary", Json.str "s"),
          ("topics", Json.arr []), ("keywords", Json.arr [])]) ↔
      (fun (_ : List Char) => some (Json.obj [("summary", Json.str "s"),
          ("topics", Json.arr []), ("keywords", Json.arr [])]))
          (stripFences (pyStrip "body".toList))
        = some (Json.obj [("summary", Json.str "s"),
          ("topics", Json.arr []), ("keywords", Json.arr [])]) ∧
      specValidAnalysis (Json.obj [("summary", Json.str "s"),
        ("topics", Json.arr []), ("keywords", Json.arr [])]) :=
  analyze_meeting_validation _ "hi".toList "key".toList "body".toList _
    (by decide) (by decide) rfl rfl

/-- C7: when the upstream content is well-formed JSON carrying the three
required, correctly typed keys and wrapped in leading/trailing code-fence
markers, `analyze_meeting` strips the fences and returns the parsed
result. -/
theorem analyze_meeting_fenced :
    ∀ (env : AnalyzeEnv) (text api_key s : List Char) (j : Json),
      (pyStrip text).isEmpty = false → api_key.isEmpty = false →
      env.openaiAvailable = true →
      env.response = some ("```json".toList ++ s ++ "```".toList) →
      env.parse s = some j → specValidAnalysis j →
      (analyze_meeting env text api_key).result = some j := by
  intro env text api_key s j hts hk ho hr hp hv
  rw [analyzeResultEq env text api_key _ hts hk ho hr]
  show ((env.parse (stripFences (pyStrip _))).bind validateAnalysis) = some j
  rw [pyStripFenced, stripFencesFenced, hp]
  show validateAnalysis j = some j
  exact (validateAnalysis_eq_some_iff j j).mpr ⟨rfl, hv⟩

/-- Witness for C7: a fenced response whose payload parses to a well-formed
object is unwrapped and returned. -/
theorem analyze_meeting_fenced_w :
    (analyze_meeting ⟨true,
        some ("```json".toList ++ "payload".toList ++ "```".toList),
        fun c => if c = "payload".toList
          then some (Json.obj [("summary", Json.str "s"),
            ("topics", Json.arr []), ("keywords", Json.arr [])])
          else none⟩
      "hi".toList "key".toList).result
        = some (Json.obj [("summary", Json.str "s"),
          ("topics", Json.arr []), ("keywords", Json.arr [])]) :=
  analyze_meeting_fenced _ "hi".toList "key".toList "payload".toList _
    (by decide) (by decide) rfl rfl (by simp) ⟨rfl, rfl, rfl, rfl, rfl, rfl⟩

lemma stripNonempty (t : List Char) (h : (pyStrip t).isEmpty = false) : t ≠ [] := by
  intro ht
  rw [ht] at h
  exact absurd h (by decide)

lemma processSuccessShape (env : ProcessEnv) (p api_key hf_token t : List Char) (a : Json)
    (hp : p ≠ [])
    (hk : api_key.isEmpty = false)
    (hex : env.pathExists = true) (hif : env.pathIsFile = true)
    (htext : (if is_audio_file (basenameL p) then env.transcribeResult
      else env.extractResult) = some t)
    (ht2 : (pyStrip t).isEmpty = false)
    (ha : env.analyzeResult = some a) (hat : a.pyTruthy = true) :
    process_meeting env (some p) api_key hf_token =
      ⟨(format_analysis_for_display (some a)).summary,
       (format_analysis_for_display (some a)).topics,
       (format_analysis_for_display (some a)).keywords,
       (match env.generatePdfResult with
        | some q => if env.pdfIsFile then some q else none
        | none => none),
       .success (basenameL p) t.length (a.getD "topics" (.arr [])).pyLen
         (a.getD "keywords" (.arr [])).pyLen (!hf_token.isEmpty),
       !hf_token.isEmpty⟩ := by
  have h1 : ¬(some p = none ∨ some p = some ([] : List Char)) := by
    rintro (h | h)
    · exact Option.noConfusion h
    · exact hp (Option.some.inj h)
  have h2 : ¬(some t = none ∨ some t = some ([] : List Char)) := by
    rintro (h | h)
    · exact Option.noConfusion h
    · exact stripNonempty t ht2 (Option.some.inj h)
  unfold process_meeting
  rw [if_neg h1]
  simp only [Option.getD_some, hk, hex, hif, Bool.not_true, Bool.false_eq_true,
    if_false, htext]
  rw [if_neg h2]
  simp only [Option.getD_some, ht2, Bool.false_eq_true, if_false, ha,
    analysisTruthy, hat, Bool.not_true]

/-- C1: when extraction (or transcription) and analysis succeed but report
rendering returns the failure signal, `process_meeting` still returns the
success outcome — the three formatted display fields and the success
status message — with the report path absent. -/
theorem process_meeting_render_failure :
    ∀ (env : ProcessEnv) (p api_key hf_token t : List Char) (a : Json),
      p ≠ [] → api_key.isEmpty = false →
      env.pathExists = true → env.pathIsFile = true →
      (if is_audio_file (basenameL p) then env.transcribeResult
        else env.extractResult) = some t →
      (pyStrip t).isEmpty = false →
      env.analyzeResult = some a → a.pyTruthy = true →
      env.generatePdfResult = none →
      process_meeting env (some p) api_key hf_token =
        ⟨(format_analysis_for_display (some a)).summary,
         (format_analysis_for_display (some a)).topics,
         (format_analysis_for_display (some a)).keywords,
         none,
         .success (basenameL p) t.length (a.getD "topics" (.arr [])).pyLen
           (a.getD "keywords" (.arr [])).pyLen (!hf_token.isEmpty),
         !hf_token.isEmpty⟩ := by
  intro env p api_key hf_token t a hp hk hex hif htext ht2 ha hat hpdf
  rw [processSuccessShape env p api_key hf_token t a hp hk hex hif htext ht2 ha hat,
    hpdf]

/-- Witness for C1: a `.txt` upload with successful extraction and analysis
but failed PDF generation still yields the success outcome without a
report path. -/
theorem process_meeting_render_failure_w :
    process_meeting ⟨true, true, none, some "hello world".toList,
        some (Json.obj [("summary", Json.str "S"),
          ("topics", Json.arr [Json.str "a"]),
          ("keywords", Json.arr [Json.str "k"])]), none, false, false⟩
      (some "notes.txt".toList) "key".toList [] =
      ⟨(format_analysis_for_display (some (Json.obj [("summary", Json.str "S"),
          ("topics", Json.arr [Json.str "a"]),
          ("keywords", Json.arr [Json.str "k"])]))).summary,
       (format_analysis_for_display (some (Json.obj [("summary", Json.str "S"),
          ("topics", Json.arr [Json.str "a"]),
          ("keywords", Json.arr [Json.str "k"])]))).topics,
       (format_analysis_for_display (some (Json.obj [("summary", Json.str "S"),
          ("topics", Json.arr [Json.str "a"]),
          ("keywords", Json.arr [Json.str "k"])]))).keywords,
       none,
       .success (basenameL "notes.txt".toList) "hello world".toList.length
         ((Json.obj [("summary", Json.str "S"),
            ("topics", Json.arr [Json.str "a"]),
            ("keywords", Json.arr [Json.str "k"])]).getD "topics" (.arr [])).pyLen
         ((Json.obj [("summary", Json.str "S"),
            ("topics", Json.arr [Json.str "a"]),
            ("keywords", Json.arr [Json.str "k"])]).getD "keywords" (.arr [])).pyLen
         (!([] : List Char).isEmpty),
       !([] : List Char).isEmpty⟩ :=
  process_meeting_render_failure _ "notes.txt".toList "key".toList [] "hello world".toList
    _ (by decide) (by decide) rfl rfl (by decide) (by decide) rfl rfl rfl

lemma processCases (env : ProcessEnv) (file : Option (List Char)) (api_key : List Char) :
    (∃ reason, ∀ tk : List Char,
        process_meeting env file api_key tk = processError reason) ∨
    (∃ sm tp kw pdf fn cc tc kc, ∀ tk : List Char,
        process_meeting env file api_key tk =
          ⟨sm, tp, kw, pdf, StatusMsg.success fn cc tc kc (!tk.isEmpty),
            !tk.isEmpty⟩) := by
  by_cases h1 : file = none ∨ file = some []
  · refine Or.inl ⟨"No file uploaded".toList, fun tk => ?_⟩
    unfold process_meeting
    rw [if_pos h1]
  · by_cases h2 : api_key.isEmpty = true
    · refine Or.inl ⟨"OpenAI API key required".toList, fun tk => ?_⟩
      unfold process_meeting
      rw [if_neg h1, if_pos h2]
    · have hk : api_key.isEmpty = false := by
        cases hx : api_key.isEmpty
        · rfl
        · exact absurd hx h2
      obtain ⟨p, rfl⟩ : ∃ p, file = some p := by
        cases file with
        | none => exact absurd (Or.inl rfl) h1
        | some p => exact ⟨p, rfl⟩
      have hp : p ≠ [] := fun hh => h1 (Or.inr (by rw [hh]))
      cases hex : env.pathExists with
      | false =>
          refine Or.inl ⟨"File not found or invalid".toList, fun tk => ?_⟩
          unfold process_meeting
          rw [if_neg h1]
          simp only [hk, Bool.false_eq_true, if_false, hex, Bool.not_false, if_true]
      | true =>
      cases hif : env.pathIsFile with
      | false =>
          refine Or.inl ⟨"Path is a directory, not a file: ".toList ++ p, fun tk => ?_⟩
          unfold process_meeting
          rw [if_neg h1]
          simp only [hk, Bool.false_eq_true, if_false, hex, hif, Bool.not_true,
            Bool.not_false, if_true, Option.getD_some]
      | true =>
      by_cases hT : (if is_audio_file (basenameL p) then env.transcribeResult
          else env.extractResult) = none ∨
          (if is_audio_file (basenameL p) then env.transcribeResult
            else env.extractResult) = some []
      · refine Or.inl ⟨(if is_audio_file (basenameL p) then "Transcription failed".toList
          else "Text extraction failed".toList), fun tk => ?_⟩
        unfold process_meeting
        rw [if_neg h1]
        simp only [hk, Bool.false_eq_true, if_false, hex, hif, Bool.not_true,
          if_true, Option.getD_some]
        rw [if_pos hT]
      · obtain ⟨t, ht⟩ : ∃ t, (if is_audio_file (basenameL p) then env.transcribeResult
            else env.extractResult) = some t := by
          cases hh : (if is_audio_file (basenameL p) then env.transcribeResult
              else env.extractResult) with
          | none => exact absurd (Or.inl hh) hT
          | some t => exact ⟨t, rfl⟩
        have htne : t ≠ [] := fun hh => hT (Or.inr (by rw [ht, hh]))
        by_cases hS : (pyStrip t).isEmpty = true
        · refine Or.inl ⟨"No text extracted from file".toList, fun tk => ?_⟩
          unfold process_meeting
          rw [if_neg h1]
          simp only [hk, Bool.false_eq_true, if_false, hex, hif, Bool.not_true,
            if_true, Option.getD_some, ht]
          rw [if_neg (fun hh => hh.elim (fun h3 => Option.noConfusion h3)
            (fun h3 => htne (Option.some.inj h3)))]
          simp only [Option.getD_some, hS, if_true]
        · have hS2 : (pyStrip t).isEmpty = false := by
            cases hx : (pyStrip t).isEmpty
            · rfl
            · exact absurd hx hS
          by_cases hA : analysisTruthy env.analyzeResult = true
          · obtain ⟨a, ha⟩ : ∃ a, env.analyzeResult = some a := by
              cases hh : env.analyzeResult with
              | none => rw [hh] at hA; exact absurd hA (by decide)
              | some a => exact ⟨a, rfl⟩
            have hat : a.pyTruthy = true := by
              rw [ha] at hA
              exact hA
            refine Or.inr ⟨(format_analysis_for_display (some a)).summary,
              (format_analysis_for_display (some a)).topics,
              (format_analysis_for_display (some a)).keywords,
              (match env.generatePdfResult with
               | some q => if env.pdfIsFile then some q else none
               | none => none),
              basenameL p, t.length, (a.getD "topics" (.arr [])).pyLen,
              (a.getD "keywords" (.arr [])).pyLen, fun tk => ?_⟩
            exact processSuccessShape env p api_key tk t a hp hk hex hif ht hS2 ha hat
          · refine Or.inl ⟨"Analysis failed".toList, fun tk => ?_⟩
            unfold process_meeting
            rw [if_neg h1]
            simp only [hk, Bool.false_eq_true, if_false, hex, hif, Bool.not_true,
              if_true, Option.getD_some, ht]
            rw [if_neg (fun hh => hh.elim (fun h3 => Option.noConfusion h3)
              (fun h3 => htne (Option.some.inj h3)))]
            have hA2 : analysisTruthy env.analyzeResult = false := by
              cases hx : analysisTruthy env.analyzeResult
              · rfl
              · exact absurd hx hA
            simp only [Option.getD_some, hS2, Bool.false_eq_true, if_false, hA2,
              Bool.not_false, if_true]

/-- C9: with an empty archival credential, `process_meeting` never invokes
the archive write path and its status message never carries the
save-confirmation line; the remaining outputs coincide with those of the
same request made with any credential, apart from the archival effects. -/
theorem process_meeting_no_token_frame :
    ∀ (env : ProcessEnv) (file : Option (List Char)) (api_key tok : List Char),
      (process_meeting env file api_key []).archiveCalled = false ∧
      (process_meeting env file api_key []).message.hasSavedLine = false ∧
      (process_meeting env file api_key []).summary
        = (process_meeting env file api_key tok).summary ∧
      (process_meeting env file api_key []).topics
        = (process_meeting env file api_key tok).topics ∧
      (process_meeting env file api_key []).keywords
        = (process_meeting env file api_key tok).keywords ∧
      (process_meeting env file api_key []).pdfPath
        = (process_meeting env file api_key tok).pdfPath ∧
      (process_meeting env file api_key tok).message.withoutSavedLine
        = (process_meeting env file api_key []).message := by
  intro env file api_key tok
  rcases processCases env file api_key with ⟨reason, hall⟩ |
    ⟨sm, tp, kw, pdf, fn, cc, tc, kc, hall⟩
  · simp [hall, processError, StatusMsg.hasSavedLine, StatusMsg.withoutSavedLine]
  · simp [hall, StatusMsg.hasSavedLine, StatusMsg.withoutSavedLine]

/-- C10: with a non-empty archival credential on the success path, the
status message always carries the save-confirmation line — the rendered
message is the credential-free message with the confirmation line appended
— even though `save_meeting_to_dataset` returned `False`: the message is
unchanged under any archive outcome. -/
theorem process_meeting_saved_line_ignores_save :
    ∀ (env : ProcessEnv) (p api_key tok t : List Char) (a : Json),
      p ≠ [] → api_key.isEmpty = false →
      env.pathExists = true → env.pathIsFile = true →
      (if is_audio_file (basenameL p) then env.transcribeResult
        else env.extractResult) = some t →
      (pyStrip t).isEmpty = false →
      env.analyzeResult = some a → a.pyTruthy = true →
      tok.isEmpty = false → env.saveResult = false →
      (process_meeting env (some p) api_key tok).message.hasSavedLine = true ∧
      renderStatus (process_meeting env (some p) api_key tok).message
        = renderStatus
            (process_meeting env (some p) api_key tok).message.withoutSavedLine
            ++ savedLineText ∧
      (process_meeting env (some p) api_key tok).archiveCalled = true ∧
      ∀ b : Bool,
        process_meeting ⟨env.pathExists, env.pathIsFile, env.transcribeResult,
          env.extractResult, env.analyzeResult, env.generatePdfResult,
          env.pdfIsFile, b⟩ (some p) api_key tok
          = process_meeting env (some p) api_key tok := by
  intro env p api_key tok t a hp hk hex hif htext ht2 ha hat htok hsave
  have hshape := processSuccessShape env p api_key tok t a hp hk hex hif htext ht2 ha hat
  refine ⟨?_, ?_, ?_, ?_⟩
  · rw [hshape]
    simp [StatusMsg.hasSavedLine, htok]
  · rw [hshape]
    simp [StatusMsg.withoutSavedLine, renderStatus, htok, List.append_assoc]
  · rw [hshape]
    simp [htok]
  · intro b
    cases env
    rfl

/-- Witness for C10: with token `tok` and a failed archive write, the
success message still carries the save-confirmation line. -/
theorem process_meeting_saved_line_ignores_save_w :
    (process_meeting ⟨true, true, none, some "hello".toList,
        some (Json.obj [("summary", Json.str "S"),
          ("topics", Json.arr [Json.str "a"]),
          ("keywords", Json.arr [Json.str "k"])]),
        some "r.pdf".toList, true, false⟩
      (some "notes.txt".toList) "key".toList "tok".toList).message.hasSavedLine
        = true :=
  (process_meeting_saved_line_ignores_save _ "notes.txt".toList "key".toList
    "tok".toList "hello".toList (Json.obj [("summary", Json.str "S"),
          ("topics", Json.arr [Json.str "a"]),
          ("keywords", Json.arr [Json.str "k"])]) (by decide) (by decide) rfl rfl (by decide)
    (by decide) rfl rfl (by decide) rfl).1
